import Mathlib

/-
Shallow embedding of dvaumoron/puzzlewikiserver (src/wikiserver/wikiserver.go).

The server exposes four operations (Load, Store, ListVersions, Delete) over a
single MongoDB collection of page-version records.  The collection is modelled
as a `List PageRecord` in natural (insertion) order, which is the order the
backend returns documents in when no sort is requested.  Each operation is a
pure function of the collection state and the request; the backend is modelled
as reliable (connections succeed, calls complete), so the `errInternal`
branches of the source, which fire only on connectivity or raw-decode failure,
are unreachable in the model (`LoadResult.internalError` mirrors them).

Integer fields (wikiId, userId, version, last) travel as protobuf integers
defined in the external puzzlewikiservice module, which is not part of this
repository; the spec describes `version` as a positive integer and callers
obtain `last` from previously stored versions, so they are modelled as `Nat`.
-/

set_option maxHeartbeats 1000000

namespace PuzzleWiki

/-- Value stored under a field key of a BSON document.  Records written by
`Store` always hold a string under the text key, but the collection can hold
documents whose text field is absent or not a string (the Go code reads it
with a type assertion whose failure flag is discarded). -/
inductive BVal where
  | vStr (s : String)
  | vInt (n : Nat)
  deriving DecidableEq

/-- One document of the pages collection: field keys wikiId, ref, version,
userId, text, plus the backend-assigned creation timestamp (extracted from the
document identifier by ExtractCreateDate). -/
structure PageRecord where
  wikiId : Nat
  ref : String
  version : Nat
  userId : Nat
  text : Option BVal
  createdAt : Nat
  deriving DecidableEq

/-- Request of Load and Delete (pb.WikiRequest): wikiId, wikiRef, version. -/
structure WikiRequest where
  wikiId : Nat
  wikiRef : String
  version : Nat
  deriving DecidableEq

/-- Request of Store (pb.ContentRequest). -/
structure ContentRequest where
  wikiId : Nat
  wikiRef : String
  last : Nat
  userId : Nat
  text : String
  deriving DecidableEq

/-- Request of ListVersions (pb.VersionRequest). -/
structure VersionRequest where
  wikiId : Nat
  wikiRef : String
  deriving DecidableEq

/-- Result of Load (pb.Content): only version, text and createdAt; the key
fields wikiId, ref and userId are projected out by contentFields. -/
structure Content where
  version : Nat
  text : String
  createdAt : Nat
  deriving DecidableEq

/-- Result of Store and Delete (pb.Response). -/
structure Response where
  success : Bool
  deriving DecidableEq

/-- One element of the ListVersions result (pb.Version). -/
structure Version where
  number : Nat
  userId : Nat
  deriving DecidableEq

/-- Outcome of Load: an ordinary Content, or the opaque errInternal.  The
error constructor corresponds to the branches of the source that log and
return errInternal (connection failure, backend call failure); with the
reliable backend of this model it is never produced. -/
inductive LoadResult where
  | ok (content : Content)
  | internalError
  deriving DecidableEq

/-- Whether the collection holds a document with key (w, r, v). -/
def hasKey (db : List PageRecord) (w : Nat) (r : String) (v : Nat) : Bool :=
  db.any fun q => decide (q.wikiId = w ∧ q.ref = r ∧ q.version = v)

/-- Modelled from the spec: the backend collaborator operation
createIfAbsent(key, record) of section 6, i.e. mongo InsertOne under the
unique index on (wikiId, ref, version) that the code relies on (the index
itself is deployment configuration, not in src/): if a document with the
same key triple exists the insert fails with a duplicate-key error (none),
otherwise the document is appended to the collection (some). -/
def insertOne (db : List PageRecord) (p : PageRecord) : Option (List PageRecord) :=
  if hasKey db p.wikiId p.ref p.version then none else some (db ++ [p])

/-- The equality filter on wikiId and ref shared by Load, ListVersions and
Delete. -/
def baseFilter (w : Nat) (r : String) (p : PageRecord) : Bool :=
  decide (p.wikiId = w ∧ p.ref = r)

/-- Mongo FindOne with sort (version: -1): among the documents of the list,
the one with the greatest version, the earliest in natural order on a tie. -/
def findOneMaxVersion : List PageRecord → Option PageRecord
  | [] => none
  | p :: rest =>
    match findOneMaxVersion rest with
    | none => some p
    | some q => if q.version > p.version then some q else some p

/-- convertToContent: version and createdAt are read from the document; the
text field is read with a string type assertion whose failure flag is
discarded, so a missing or non-string text field becomes the empty string. -/
def convertToContent (page : PageRecord) : Content :=
  { version := page.version,
    text := match page.text with
      | some (BVal.vStr s) => s
      | _ => "",
    createdAt := page.createdAt }

/-- The empty pb.Content returned when no document matches: version 0. -/
def emptyContent : Content := { version := 0, text := "", createdAt := 0 }

/-- The FindOne step of Load: filter on wikiId and ref; when the requested
version is nonzero the version equality is added to the filter and no sort is
used (first document in natural order), otherwise the sort (version: -1)
selects the maximum version. -/
def loadLookup (db : List PageRecord) (req : WikiRequest) : Option PageRecord :=
  if req.version ≠ 0 then
    db.find? fun p => baseFilter req.wikiId req.wikiRef p && decide (p.version = req.version)
  else
    findOneMaxVersion (db.filter (baseFilter req.wikiId req.wikiRef))

/-- Load: FindOne, mapping ErrNoDocuments to the empty Content (version 0)
and a found document through convertToContent. -/
def Load (db : List PageRecord) (req : WikiRequest) : LoadResult :=
  match loadLookup db req with
  | none => LoadResult.ok emptyContent
  | some page => LoadResult.ok (convertToContent page)

/-- The document Store builds: newVersion = last + 1, the other fields as
supplied, plus the backend-assigned creation timestamp ts. -/
def storedPage (req : ContentRequest) (ts : Nat) : PageRecord :=
  { wikiId := req.wikiId, ref := req.wikiRef, version := req.last + 1,
    userId := req.userId, text := some (BVal.vStr req.text), createdAt := ts }

/-- Store: a single InsertOne of the built document; a duplicate-key error is
reported as success = false with no further action, a created document as
success = true. -/
def Store (db : List PageRecord) (req : ContentRequest) (ts : Nat) :
    List PageRecord × Response :=
  match insertOne db (storedPage req ts) with
  | none => (db, { success := false })
  | some db2 => (db2, { success := true })

/-- convertToVersion: the (version, userId) pair of a document. -/
def convertToVersion (page : PageRecord) : Version :=
  { number := page.version, userId := page.userId }

/-- ListVersions: Find with the wikiId and ref filter, no sort, the cursor
fully drained into a list, each document mapped through convertToVersion. -/
def ListVersions (db : List PageRecord) (req : VersionRequest) : List Version :=
  (db.filter (baseFilter req.wikiId req.wikiRef)).map convertToVersion

/-- Delete: DeleteMany with the full (wikiId, ref, version) equality filter;
success whenever the call completes, however many documents matched. -/
def Delete (db : List PageRecord) (req : WikiRequest) : List PageRecord × Response :=
  (db.filter fun p =>
      !(decide (p.wikiId = req.wikiId ∧ p.ref = req.wikiRef ∧ p.version = req.version)),
   { success := true })

/-- A serialization of concurrent Store calls: since each Store performs a
single atomic insert, any interleaving of N calls is some sequential order of
their inserts.  Returns the final collection and the success flag of each
call in order. -/
def runStores (db : List PageRecord) : List (ContentRequest × Nat) → List PageRecord × List Bool
  | [] => (db, [])
  | (req, ts) :: rest =>
    ((runStores (Store db req ts).1 rest).1,
     (Store db req ts).2.success :: (runStores (Store db req ts).1 rest).2)

/-- A sample stored record, used by the concrete witnesses below. -/
def pageOne : PageRecord :=
  { wikiId := 1, ref := "home", version := 1, userId := 7,
    text := some (BVal.vStr "A"), createdAt := 4 }

/-- A second sample stored record for the same page, version 2. -/
def pageTwo : PageRecord :=
  { wikiId := 1, ref := "home", version := 2, userId := 8,
    text := some (BVal.vStr "B"), createdAt := 5 }

theorem hasKey_eq_false_iff (db : List PageRecord) (w : Nat) (r : String) (v : Nat) :
    hasKey db w r v = false ↔
      ∀ p ∈ db, ¬(p.wikiId = w ∧ p.ref = r ∧ p.version = v) := by
  simp [hasKey]

theorem findOneMaxVersion_eq_none_iff {l : List PageRecord} :
    findOneMaxVersion l = none ↔ l = [] := by
  cases l with
  | nil => simp [findOneMaxVersion]
  | cons p rest =>
    constructor
    · intro h
      exfalso
      cases hr : findOneMaxVersion rest with
      | none => simp [findOneMaxVersion, hr] at h
      | some q =>
        simp only [findOneMaxVersion, hr] at h
        by_cases hc : p.version < q.version
        · rw [if_pos hc] at h
          exact Option.noConfusion h
        · rw [if_neg hc] at h
          exact Option.noConfusion h
    · intro h
      exact absurd h (List.cons_ne_nil p rest)

theorem findOneMaxVersion_mem : ∀ {l : List PageRecord} {q : PageRecord},
    findOneMaxVersion l = some q → q ∈ l := by
  intro l
  induction l with
  | nil => intro q h; simp [findOneMaxVersion] at h
  | cons p rest ih =>
    intro q h
    cases hr : findOneMaxVersion rest with
    | none =>
      simp only [findOneMaxVersion, hr, Option.some.injEq] at h
      subst h
      exact List.mem_cons_self p rest
    | some m =>
      simp only [findOneMaxVersion, hr] at h
      by_cases hc : p.version < m.version
      · rw [if_pos hc] at h
        injection h with h2
        subst h2
        exact List.mem_cons_of_mem p (ih hr)
      · rw [if_neg hc] at h
        injection h with h2
        subst h2
        exact List.mem_cons_self p rest

theorem findOneMaxVersion_max : ∀ {l : List PageRecord} {q : PageRecord},
    findOneMaxVersion l = some q → ∀ x ∈ l, x.version ≤ q.version := by
  intro l
  induction l with
  | nil => intro q h; simp [findOneMaxVersion] at h
  | cons p rest ih =>
    intro q h x hx
    cases hr : findOneMaxVersion rest with
    | none =>
      have hrest : rest = [] := findOneMaxVersion_eq_none_iff.mp hr
      subst hrest
      simp only [findOneMaxVersion, Option.some.injEq] at h
      subst h
      have hxp : x = p := by simpa using hx
      subst hxp
      exact Nat.le_refl _
    | some m =>
      simp only [findOneMaxVersion, hr] at h
      by_cases hc : p.version < m.version
      · rw [if_pos hc] at h
        injection h with h2
        subst h2
        rcases List.mem_cons.mp hx with rfl | hxr
        · exact Nat.le_of_lt hc
        · exact ih hr x hxr
      · rw [if_neg hc] at h
        injection h with h2
        subst h2
        rcases List.mem_cons.mp hx with rfl | hxr
        · exact Nat.le_refl _
        · exact Nat.le_trans (ih hr x hxr) (Nat.le_of_not_lt hc)

theorem findOneMaxVersion_append_strict {l : List PageRecord} {p : PageRecord}
    (h : ∀ x ∈ l, x.version < p.version) :
    findOneMaxVersion (l ++ [p]) = some p := by
  induction l with
  | nil => simp [findOneMaxVersion]
  | cons a rest ih =>
    have hrest := ih fun x hx => h x (List.mem_cons_of_mem a hx)
    rw [List.cons_append]
    simp only [findOneMaxVersion, hrest]
    rw [if_pos (h a (List.mem_cons_self a rest))]

theorem load_no_match (db : List PageRecord) (req : WikiRequest)
    (h : ∀ p ∈ db, ¬(p.wikiId = req.wikiId ∧ p.ref = req.wikiRef ∧
        (req.version ≠ 0 → p.version = req.version))) :
    Load db req = LoadResult.ok emptyContent := by
  have hlk : loadLookup db req = none := by
    unfold loadLookup
    by_cases hv : req.version ≠ 0
    · rw [if_pos hv]
      apply List.find?_eq_none.mpr
      intro p hp
      have hnp := h p hp
      simp only [baseFilter, Bool.and_eq_true, decide_eq_true_eq, not_and]
      intro hbase
      rcases hbase with ⟨h1, h2⟩
      intro hver
      exact hnp ⟨h1, h2, fun _ => hver⟩
    · rw [if_neg hv]
      have hfil : db.filter (baseFilter req.wikiId req.wikiRef) = [] := by
        apply List.filter_eq_nil_iff.mpr
        intro p hp
        have hnp := h p hp
        simp only [baseFilter, decide_eq_true_eq, not_and]
        intro h1 h2
        exact hnp ⟨h1, h2, fun hv0 => absurd hv0 (by simpa using hv)⟩
      rw [hfil]
      rfl
  simp [Load, hlk]

/-- C1: Store with inputs (wikiId, ref, userId, text, last) attempts to create
exactly version last + 1 through a single create-if-absent insert of a record
carrying the supplied fields: when no record with key (wikiId, ref, last + 1)
exists the record is created and success = true is returned, when such a
record exists success = false is returned and the collection is untouched. -/
theorem store_single_attempt (db : List PageRecord) (req : ContentRequest) (ts : Nat) :
    Store db req ts =
      if hasKey db req.wikiId req.wikiRef (req.last + 1)
      then (db, { success := false })
      else (db ++ [storedPage req ts], { success := true }) := by
  by_cases h : hasKey db req.wikiId req.wikiRef (req.last + 1)
  · rw [if_pos h]
    simp [Store, insertOne, storedPage, h]
  · rw [if_neg h]
    simp [Store, insertOne, storedPage, h]

/-- C9: whatever the outcome of Store, every record present before the call is
still present and unchanged after it: the final collection is the initial one
with at most the single new record appended. -/
theorem store_frame (db : List PageRecord) (req : ContentRequest) (ts : Nat) :
    (Store db req ts).1 =
      db ++ (if (Store db req ts).2.success then [storedPage req ts] else []) := by
  by_cases h : hasKey db (storedPage req ts).wikiId (storedPage req ts).ref
      (storedPage req ts).version
  · simp [Store, insertOne, h]
  · simp [Store, insertOne, h]

/-- C10: Delete with version = 0 is not read as latest; the filter requires
version equal to 0 exactly, so when every stored version is at least 1 no
record is removed and the call still reports success = true. -/
theorem delete_version_zero (db : List PageRecord) (req : WikiRequest)
    (h0 : req.version = 0) (hpos : ∀ p ∈ db, 1 ≤ p.version) :
    Delete db req = (db, { success := true }) := by
  simp only [Delete, Prod.mk.injEq]
  refine ⟨List.filter_eq_self.mpr ?_, trivial⟩
  intro p hp
  have h1 := hpos p hp
  simp only [h0, Bool.not_eq_true', decide_eq_false_iff_not, not_and]
  intro _ _
  omega

/-- C10 witness: deleting version 0 over a one-record collection removes
nothing and reports success. -/
theorem delete_version_zero_witness :
    Delete [{ wikiId := 1, ref := "home", version := 1, userId := 7,
              text := some (BVal.vStr "A"), createdAt := 2 }]
        { wikiId := 1, wikiRef := "home", version := 0 } =
      ([{ wikiId := 1, ref := "home", version := 1, userId := 7,
          text := some (BVal.vStr "A"), createdAt := 2 }], { success := true }) :=
  delete_version_zero _ _ rfl (by decide)

/-- C4: when the filter of Load matches no stored record, whether the
(wikiId, ref) pair was never written or an explicit nonzero version does not
exist, Load returns the sentinel empty content with version = 0 as an ordinary
result, not an error. -/
theorem load_absent_sentinel (db : List PageRecord) (req : WikiRequest)
    (h : ∀ p ∈ db, ¬(p.wikiId = req.wikiId ∧ p.ref = req.wikiRef ∧
        (req.version ≠ 0 → p.version = req.version))) :
    Load db req = LoadResult.ok emptyContent :=
  load_no_match db req h

/-- C4 witness: Load of a never-written pair, and Load of an existing pair at
a nonexistent explicit version, both return the version 0 sentinel. -/
theorem load_absent_sentinel_witness :
    Load [{ wikiId := 1, ref := "home", version := 1, userId := 7,
            text := some (BVal.vStr "A"), createdAt := 2 }]
        { wikiId := 1, wikiRef := "other", version := 0 } = LoadResult.ok emptyContent ∧
    Load [{ wikiId := 1, ref := "home", version := 1, userId := 7,
            text := some (BVal.vStr "A"), createdAt := 2 }]
        { wikiId := 1, wikiRef := "home", version := 5 } = LoadResult.ok emptyContent :=
  ⟨load_absent_sentinel _ _ (by decide), load_absent_sentinel _ _ (by decide)⟩

/-- C7: Delete removes every stored record matching the full
(wikiId, ref, version) triple, keeps every other record, reports
success = true unconditionally, repeating the same Delete again succeeds and
changes nothing, and a Load for that exact (nonzero) version afterwards
returns the version 0 sentinel. -/
theorem delete_removes_matching (db : List PageRecord) (req : WikiRequest) :
    (Delete db req).2.success = true ∧
    (∀ p ∈ (Delete db req).1,
        ¬(p.wikiId = req.wikiId ∧ p.ref = req.wikiRef ∧ p.version = req.version)) ∧
    (∀ p ∈ db,
        ¬(p.wikiId = req.wikiId ∧ p.ref = req.wikiRef ∧ p.version = req.version) →
        p ∈ (Delete db req).1) ∧
    Delete (Delete db req).1 req = ((Delete db req).1, { success := true }) ∧
    (req.version ≠ 0 → Load (Delete db req).1 req = LoadResult.ok emptyContent) := by
  simp only [Delete]
  refine ⟨trivial, ?_, ?_, ?_, ?_⟩
  · intro p hp
    have h2 := (List.mem_filter.mp hp).2
    simp only [Bool.not_eq_true', decide_eq_false_iff_not] at h2
    exact h2
  · intro p hp hnp
    refine List.mem_filter.mpr ⟨hp, ?_⟩
    simp only [Bool.not_eq_true', decide_eq_false_iff_not]
    exact hnp
  · simp only [Prod.mk.injEq]
    refine ⟨List.filter_eq_self.mpr ?_, trivial⟩
    intro p hp
    exact (List.mem_filter.mp hp).2
  · intro hv
    apply load_no_match
    intro p hp hcon
    have h2 := (List.mem_filter.mp hp).2
    simp only [Bool.not_eq_true', decide_eq_false_iff_not] at h2
    exact h2 ⟨hcon.1, hcon.2.1, hcon.2.2 hv⟩

/-- C7 witness: deleting the only record of a page succeeds, a repeated
delete succeeds and changes nothing, and a Load for the deleted version
returns the sentinel. -/
theorem delete_removes_matching_witness :
    Load (Delete [pageOne] { wikiId := 1, wikiRef := "home", version := 1 }).1
        { wikiId := 1, wikiRef := "home", version := 1 } = LoadResult.ok emptyContent :=
  (delete_removes_matching [pageOne] { wikiId := 1, wikiRef := "home", version := 1 }).2.2.2.2
    (by decide)

/-- C8 counterexample: a stored record whose text field is not a string is
returned by Load as a successful Content with the text defaulted to the empty
string, not as the internal error the claim requires. -/
theorem load_text_default_counterexample :
    Load [{ wikiId := 1, ref := "home", version := 1, userId := 7,
            text := some (BVal.vInt 42), createdAt := 3 }]
        { wikiId := 1, wikiRef := "home", version := 1 } =
      LoadResult.ok { version := 1, text := "", createdAt := 3 } := by decide

/-- C8 amended: a failure to decode the raw stored document is a backend
failure, but a text field that is missing or not a string is not an error:
Load then returns a successful result whose text is defaulted to the empty
string. -/
theorem load_text_default (db : List PageRecord) (req : WikiRequest) (p : PageRecord)
    (hp : loadLookup db req = some p) (ht : ∀ s, p.text ≠ some (BVal.vStr s)) :
    Load db req =
      LoadResult.ok { version := p.version, text := "", createdAt := p.createdAt } := by
  have hc : convertToContent p =
      { version := p.version, text := "", createdAt := p.createdAt } := by
    unfold convertToContent
    cases hpt : p.text with
    | none => rfl
    | some v =>
      cases v with
      | vStr s => exact absurd hpt (ht s)
      | vInt n => rfl
  simp [Load, hp, hc]

/-- C8 amended witness: a record with no text field loads successfully with
empty text. -/
theorem load_text_default_witness :
    Load [{ wikiId := 2, ref := "doc", version := 3, userId := 5,
            text := none, createdAt := 9 }]
        { wikiId := 2, wikiRef := "doc", version := 3 } =
      LoadResult.ok { version := 3, text := "", createdAt := 9 } :=
  load_text_default _ _
    { wikiId := 2, ref := "doc", version := 3, userId := 5, text := none, createdAt := 9 }
    (by decide) fun s h => Option.noConfusion h

/-- C3: when the stored key triples are unique (the backend invariant), Load
with a nonzero requested version returns the unique record matching
(wikiId, ref, version) exactly, and Load with version zero returns the record
of maximum version among those of (wikiId, ref); the result type Content
carries only version, text and createdAt, the key fields being projected
out. -/
theorem load_selects_requested_version (db : List PageRecord) (req : WikiRequest)
    (p : PageRecord)
    (huniq : ∀ a ∈ db, ∀ b ∈ db,
        a.wikiId = b.wikiId → a.ref = b.ref → a.version = b.version → a = b) :
    (req.version ≠ 0 → p ∈ db → p.wikiId = req.wikiId → p.ref = req.wikiRef →
        p.version = req.version →
        Load db req = LoadResult.ok (convertToContent p)) ∧
    (req.version = 0 → p ∈ db → p.wikiId = req.wikiId → p.ref = req.wikiRef →
        (∀ q ∈ db, q.wikiId = req.wikiId → q.ref = req.wikiRef →
            q.version ≤ p.version) →
        Load db req = LoadResult.ok (convertToContent p)) := by
  constructor
  · intro hv hp h1 h2 h3
    have hfind : db.find? (fun x => baseFilter req.wikiId req.wikiRef x &&
        decide (x.version = req.version)) = some p := by
      cases hf : db.find? (fun x => baseFilter req.wikiId req.wikiRef x &&
          decide (x.version = req.version)) with
      | none =>
        exfalso
        have hnone := List.find?_eq_none.mp hf p hp
        simp [baseFilter, h1, h2, h3] at hnone
      | some q =>
        have hqm := List.mem_of_find?_eq_some hf
        have hqp := List.find?_some hf
        simp only [baseFilter, Bool.and_eq_true, decide_eq_true_eq] at hqp
        obtain ⟨⟨hq1, hq2⟩, hq3⟩ := hqp
        have hqe : q = p :=
          huniq q hqm p hp (hq1.trans h1.symm) (hq2.trans h2.symm) (hq3.trans h3.symm)
        rw [hqe]
    unfold Load loadLookup
    rw [if_pos hv, hfind]
  · intro hv hp h1 h2 hmax
    have hpf : p ∈ db.filter (baseFilter req.wikiId req.wikiRef) :=
      List.mem_filter.mpr ⟨hp, by simp [baseFilter, h1, h2]⟩
    obtain ⟨q, hq⟩ : ∃ q,
        findOneMaxVersion (db.filter (baseFilter req.wikiId req.wikiRef)) = some q := by
      cases hf : findOneMaxVersion (db.filter (baseFilter req.wikiId req.wikiRef)) with
      | none =>
        exfalso
        have he := findOneMaxVersion_eq_none_iff.mp hf
        rw [he] at hpf
        exact List.not_mem_nil p hpf
      | some q => exact ⟨q, rfl⟩
    have hqf := findOneMaxVersion_mem hq
    have hqdb := (List.mem_filter.mp hqf).1
    have hqbase := (List.mem_filter.mp hqf).2
    simp only [baseFilter, decide_eq_true_eq] at hqbase
    have hle1 : p.version ≤ q.version := findOneMaxVersion_max hq p hpf
    have hle2 : q.version ≤ p.version := hmax q hqdb hqbase.1 hqbase.2
    have hqe : q = p :=
      huniq q hqdb p hp (hqbase.1.trans h1.symm) (hqbase.2.trans h2.symm)
        (Nat.le_antisymm hle2 hle1)
    unfold Load loadLookup
    rw [if_neg (by simp [hv]), hq, hqe]

/-- C3 witness: over a two-version page, Load with version 1 returns the
version 1 record and Load with version 0 returns the maximum, version 2. -/
theorem load_selects_requested_version_witness :
    Load [pageOne, pageTwo] { wikiId := 1, wikiRef := "home", version := 1 } =
      LoadResult.ok (convertToContent pageOne) ∧
    Load [pageOne, pageTwo] { wikiId := 1, wikiRef := "home", version := 0 } =
      LoadResult.ok (convertToContent pageTwo) :=
  ⟨(load_selects_requested_version [pageOne, pageTwo]
      { wikiId := 1, wikiRef := "home", version := 1 } pageOne (by decide)).1
      (by decide) (by decide) rfl rfl rfl,
   (load_selects_requested_version [pageOne, pageTwo]
      { wikiId := 1, wikiRef := "home", version := 0 } pageTwo (by decide)).2
      rfl (by decide) rfl rfl (by decide)⟩

/-- C5 counterexample: over a collection already holding version 2 of the
page, a Store with last = 0 succeeds (key version 1 is free), yet the
subsequent Load with version zero returns the pre-existing version 2 with its
text, not version last + 1 = 1 with the stored text: Load selects the maximum
version, which need not be the freshly created one. -/
theorem load_after_store_counterexample :
    (Store [pageTwo]
        { wikiId := 1, wikiRef := "home", last := 0, userId := 9, text := "C" } 6).2.success
      = true ∧
    Load (Store [pageTwo]
        { wikiId := 1, wikiRef := "home", last := 0, userId := 9, text := "C" } 6).1
        { wikiId := 1, wikiRef := "home", version := 0 } =
      LoadResult.ok { version := 2, text := "B", createdAt := 5 } ∧
    (2 : Nat) ≠ 0 + 1 := by decide

/-- C5 amended: after a Store with last = v succeeds, and provided every
record already stored for (wikiId, ref) has version at most v (as under
correct use, where v is the current maximum), a Load with version zero
returns version v + 1 carrying the text supplied to that Store. -/
theorem load_after_store_amended (db : List PageRecord) (req : ContentRequest) (ts : Nat)
    (hmax : ∀ p ∈ db, p.wikiId = req.wikiId → p.ref = req.wikiRef →
        p.version ≤ req.last)
    (hsucc : (Store db req ts).2.success = true) :
    Load (Store db req ts).1 { wikiId := req.wikiId, wikiRef := req.wikiRef, version := 0 } =
      LoadResult.ok { version := req.last + 1, text := req.text, createdAt := ts } := by
  have hdb : (Store db req ts).1 = db ++ [storedPage req ts] := by
    cases hk : hasKey db req.wikiId req.wikiRef (req.last + 1) with
    | false => simp [Store, insertOne, storedPage, hk]
    | true =>
      exfalso
      have hfail : (Store db req ts).2.success = false := by
        simp [Store, insertOne, storedPage, hk]
      rw [hfail] at hsucc
      exact Bool.noConfusion hsucc
  rw [hdb]
  unfold Load loadLookup
  rw [if_neg (by simp)]
  have hfil : (db ++ [storedPage req ts]).filter (baseFilter req.wikiId req.wikiRef) =
      db.filter (baseFilter req.wikiId req.wikiRef) ++ [storedPage req ts] := by
    rw [List.filter_append]
    congr 1
    simp [baseFilter, storedPage]
  rw [hfil]
  have hstrict : ∀ x ∈ db.filter (baseFilter req.wikiId req.wikiRef),
      x.version < (storedPage req ts).version := by
    intro x hx
    have hxdb := (List.mem_filter.mp hx).1
    have hxb := (List.mem_filter.mp hx).2
    simp only [baseFilter, decide_eq_true_eq] at hxb
    have hxle := hmax x hxdb hxb.1 hxb.2
    simp only [storedPage]
    omega
  rw [findOneMaxVersion_append_strict hstrict]
  simp [convertToContent, storedPage]

/-- C5 amended witness: storing on top of the single version 1 succeeds and
Load with version zero then returns version 2 with the stored text. -/
theorem load_after_store_witness :
    Load (Store [pageOne]
        { wikiId := 1, wikiRef := "home", last := 1, userId := 8, text := "B" } 5).1
        { wikiId := 1, wikiRef := "home", version := 0 } =
      LoadResult.ok { version := 2, text := "B", createdAt := 5 } :=
  load_after_store_amended [pageOne]
    { wikiId := 1, wikiRef := "home", last := 1, userId := 8, text := "B" } 5
    (by decide) (by decide)

theorem store_conflict_of_hasKey (db : List PageRecord) (req : ContentRequest) (ts : Nat)
    (hk : hasKey db req.wikiId req.wikiRef (req.last + 1) = true) :
    Store db req ts = (db, { success := false }) := by
  simp [Store, insertOne, storedPage, hk]

theorem runStores_all_conflict (w : Nat) (r : String) (v : Nat) :
    ∀ (reqs : List (ContentRequest × Nat)) (db : List PageRecord),
    (∀ q ∈ reqs, q.1.wikiId = w ∧ q.1.wikiRef = r ∧ q.1.last = v) →
    hasKey db w r (v + 1) = true →
    runStores db reqs = (db, List.replicate reqs.length false) := by
  intro reqs
  induction reqs with
  | nil => intro db _ _; rfl
  | cons q rest ih =>
    intro db hall hk
    obtain ⟨qr, qt⟩ := q
    obtain ⟨h1, h2, h3⟩ := hall (qr, qt) (List.mem_cons_self _ _)
    have hstep : Store db qr qt = (db, { success := false }) := by
      apply store_conflict_of_hasKey
      rw [h1, h2, h3]
      exact hk
    have hrest := ih db (fun x hx => hall x (List.mem_cons_of_mem _ hx)) hk
    simp only [runStores, hstep, hrest, List.length_cons, List.replicate_succ]

/-- C2: for a fixed (wikiId, ref) and N serialized concurrent Store calls all
carrying the same last = v over a collection where version v + 1 is still
free, the success flags have length N, exactly one of them is true, the other
N - 1 are false, and the final collection holds exactly one record with key
(wikiId, ref, v + 1): at most one create attempt of a fixed triple ever
succeeds. -/
theorem store_race_at_most_one_success (db : List PageRecord)
    (reqs : List (ContentRequest × Nat)) (w : Nat) (r : String) (v : Nat)
    (hall : ∀ q ∈ reqs, q.1.wikiId = w ∧ q.1.wikiRef = r ∧ q.1.last = v)
    (hfree : hasKey db w r (v + 1) = false)
    (hne : reqs ≠ []) :
    (runStores db reqs).2.length = reqs.length ∧
    (runStores db reqs).2.count true = 1 ∧
    (runStores db reqs).2.count false = reqs.length - 1 ∧
    ((runStores db reqs).1.filter fun p =>
        decide (p.wikiId = w ∧ p.ref = r ∧ p.version = v + 1)).length = 1 := by
  cases reqs with
  | nil => exact absurd rfl hne
  | cons q rest =>
    obtain ⟨qr, qt⟩ := q
    obtain ⟨h1, h2, h3⟩ := hall (qr, qt) (List.mem_cons_self _ _)
    have hfree2 : hasKey db qr.wikiId qr.wikiRef (qr.last + 1) = false := by
      rw [h1, h2, h3]
      exact hfree
    have h1' : qr.wikiId = w := h1
    have h2' : qr.wikiRef = r := h2
    have h3' : qr.last = v := h3
    have hstep : Store db qr qt = (db ++ [storedPage qr qt], { success := true }) := by
      simp [Store, insertOne, storedPage, hfree2]
    have hkey2 : hasKey (db ++ [storedPage qr qt]) w r (v + 1) = true := by
      simp only [hasKey, List.any_append, storedPage, List.any_cons, List.any_nil,
        Bool.or_false, Bool.or_eq_true, decide_eq_true_eq]
      exact Or.inr ⟨h1', h2', by rw [h3']⟩
    have hrest := runStores_all_conflict w r v rest (db ++ [storedPage qr qt])
      (fun x hx => hall x (List.mem_cons_of_mem _ hx)) hkey2
    simp only [runStores, hstep, hrest]
    refine ⟨by simp, ?_, ?_, ?_⟩
    · simp [List.count_cons, List.count_replicate]
    · simp [List.count_cons, List.count_replicate]
    · rw [List.filter_append]
      have hdb0 : db.filter (fun p =>
          decide (p.wikiId = w ∧ p.ref = r ∧ p.version = v + 1)) = [] := by
        apply List.filter_eq_nil_iff.mpr
        intro p hp
        have hnp := (hasKey_eq_false_iff db w r (v + 1)).mp hfree p hp
        simpa using hnp
      rw [hdb0]
      simp [storedPage, h1', h2', h3']

/-- C2 witness: two serialized Store calls with the same last = 0 on an empty
collection produce exactly one success. -/
theorem store_race_witness :
    (runStores []
      [({ wikiId := 1, wikiRef := "home", last := 0, userId := 7, text := "A" }, 6),
       ({ wikiId := 1, wikiRef := "home", last := 0, userId := 8, text := "B" }, 7)]).2.count true
      = 1 :=
  (store_race_at_most_one_success []
    [({ wikiId := 1, wikiRef := "home", last := 0, userId := 7, text := "A" }, 6),
     ({ wikiId := 1, wikiRef := "home", last := 0, userId := 8, text := "B" }, 7)]
    1 "home" 0 (by decide) (by decide) (by decide)).2.1

/-- C6: ListVersions returns a finite fully materialized list containing
exactly one (version, userId) pair for every stored record of (wikiId, ref):
its length is the number of matching records and, for every pair (v, u), the
number of occurrences of that pair equals the number of matching records with
version v and userId u; the element type Version carries no text and no
createdAt. -/
theorem listVersions_complete (db : List PageRecord) (req : VersionRequest) :
    (ListVersions db req).length =
      (db.filter (baseFilter req.wikiId req.wikiRef)).length ∧
    ∀ v u, (ListVersions db req).count { number := v, userId := u } =
      (db.filter fun p => decide (p.wikiId = req.wikiId ∧ p.ref = req.wikiRef ∧
          p.version = v ∧ p.userId = u)).length := by
  constructor
  · simp [ListVersions]
  · intro v u
    rw [ListVersions, List.count_eq_countP, List.countP_map, List.countP_filter,
      ← List.countP_eq_length_filter]
    apply List.countP_congr
    intro p _
    by_cases hA : p.wikiId = req.wikiId <;> by_cases hB : p.ref = req.wikiRef <;>
      by_cases hC : p.version = v <;> by_cases hD : p.userId = u <;>
      simp [convertToVersion, baseFilter, Version.mk.injEq, hA, hB, hC, hD]

end PuzzleWiki
